import Mathlib

/-!
Verification development for the MPC1000-to-SP303 sample tools.

The development shallowly embeds the two Python modules:

* `organize_sp303_banks.py`: the `.pgm` descriptor parser `parse_pgm_file`
  (magic-header check, fixed-stride record scan with the first-record
  termination heuristic) and the bank organizer `create_sp303_banks`.
* `preprocess_sp303_wavs.py`: the audio data model (`AudioAsset`), the
  silence padder `pad_short_sample`, the format checker `convert_format`,
  the compatibility predicate `is_sp303_compatible`, and the per-file
  counter updates of `preprocess_directory`.

Byte buffers are `List Nat` (each element one byte), text is `List Char`,
machine integers are `Nat`/`Int`, Python floats are modelled as `ℚ`, and
fallible operations return `Except`.
-/

/-! ## Descriptor parser (organize_sp303_banks.py, parse_pgm_file) -/

/-- Decoding of a raw name field, from the loop in `parse_pgm_file`:
keep bytes in the printable ASCII range 32..126, stop at the first zero
byte, and silently skip every other byte. -/
def decodeChars : List Nat → List Char
  | [] => []
  | b :: rest =>
    if 32 ≤ b ∧ b ≤ 126 then Char.ofNat b :: decodeChars rest
    else if b = 0 then []
    else decodeChars rest

/-- Whitespace characters removed by the Python `str.strip()` call, for
strings drawn from the byte range that `decodeChars` can produce together
with the other one-byte whitespace code points Python strips. -/
def isPySpace (c : Char) : Bool :=
  c = ' ' || c = '\t' || c = '\n' || c = '\r' || c = '\x0b' || c = '\x0c'

/-- Model of Python `str.strip()`: drop whitespace from both ends. -/
def pyStrip (s : List Char) : List Char :=
  ((s.dropWhile isPySpace).reverse.dropWhile isPySpace).reverse

/-- Decoded and trimmed sample name obtained from a raw name field, as
computed for each record by `parse_pgm_file`. -/
def decodedName (raw : List Nat) : List Char :=
  pyStrip (decodeChars raw)

/-- Name extracted from the 16-byte field at `offset`, matching
`data[offset:offset+SAMPLE_NAME_SIZE]` followed by decode and strip. -/
def recordName (data : List Nat) (offset : Nat) : List Char :=
  decodedName ((data.drop offset).take 16)

/-- Characters of the magic substring checked by `parse_pgm_file`. -/
def magicChars : List Char :=
  ['M', 'P', 'C', '1', '0', '0', '0', ' ', 'P', 'G', 'M']

/-- Model of `data[4:20].decode(ascii, errors=ignore)`: take the bytes at
offsets 4..19 and keep those below 128 as characters. -/
def headerChars (data : List Nat) : List Char :=
  ((data.drop 4).take 16).filterMap (fun b => if b < 128 then some (Char.ofNat b) else none)

/-- Boolean test that `pat` occurs at the start of `s`. -/
def listStartsWith : List Char → List Char → Bool
  | [], _ => true
  | _ :: _, [] => false
  | a :: pa, b :: sb => a = b && listStartsWith pa sb

/-- Boolean test that `pat` occurs somewhere inside `s`, modelling the
Python substring operator `in`. -/
def hasSub (pat : List Char) : List Char → Bool
  | [] => listStartsWith pat []
  | c :: rest => listStartsWith pat (c :: rest) || hasSub pat rest

/-- Header validation of `parse_pgm_file`: the magic substring must occur
in the decoded bytes at offsets 4..19. -/
def containsMagic (data : List Nat) : Bool :=
  hasSub magicChars (headerChars data)

/-- Record-scanning loop of `parse_pgm_file`. The loop runs while
`offset + 16 ≤ data.length` and `padIndex < 64`; a decoded name that is
empty or shorter than two characters stops the scan when `padIndex = 0`
and is skipped (advancing index and offset by one stride) otherwise.
Each continuing iteration increments `padIndex`, so fuel `64` together
with the `padIndex < 64` guard makes the fuel never bind first when the
scan starts at `padIndex = 0`. -/
def scanAux (data : List Nat) : Nat → Nat → Nat → List (Nat × List Char)
  | _, _, 0 => []
  | padIndex, offset, fuel + 1 =>
    if offset + 16 ≤ data.length ∧ padIndex < 64 then
      if (recordName data offset).length < 2 then
        if 0 < padIndex then scanAux data (padIndex + 1) (offset + 164) fuel
        else []
      else (padIndex, recordName data offset) :: scanAux data (padIndex + 1) (offset + 164) fuel
    else []

/-- Embedding of `parse_pgm_file`: validate the header magic, then scan
records of 164 bytes starting at offset 24, collecting the pad map as an
association list in scan order. The only failure is the missing magic. -/
def parse_pgm_file (data : List Nat) : Except String (List (Nat × List Char)) :=
  if containsMagic data then Except.ok (scanAux data 0 24 64)
  else Except.error "Not a valid MPC1000 PGM file"

/-! ## Synthetic descriptors for the round-trip property -/

/-- Names that a well-formed record stores: printable ASCII, between 2 and
16 characters, and unchanged by stripping. -/
def GoodName (n : List Char) : Prop :=
  2 ≤ n.length ∧ n.length ≤ 16 ∧ (∀ c ∈ n, 32 ≤ c.toNat ∧ c.toNat ≤ 126) ∧ pyStrip n = n

instance (n : List Char) : Decidable (GoodName n) := by
  unfold GoodName; infer_instance

/-- The 16-byte name field of a synthetic record: the name bytes followed
by zero padding. -/
def nameField (n : List Char) : List Nat :=
  n.map Char.toNat ++ List.replicate (16 - n.length) 0

/-- One synthetic 164-byte record: the name field and 148 filler bytes. -/
def mkRecord (n : List Char) : List Nat :=
  nameField n ++ List.replicate 148 0

/-- A 24-byte synthetic header: 4 filler bytes, the magic text padded with
spaces to 16 bytes, and 4 more filler bytes up to the first record. -/
def headerBytes : List Nat :=
  [0, 0, 0, 0] ++ (magicChars.map Char.toNat ++ List.replicate 5 32) ++ [0, 0, 0, 0]

/-- Synthetic descriptor holding the given names in consecutive records. -/
def mkDescriptor (names : List (List Char)) : List Nat :=
  headerBytes ++ (names.map mkRecord).flatten

/-- Association list pairing consecutive indices from `i` with the list
elements, describing the expected pad map of a fully valid descriptor. -/
def indexedFrom (i : Nat) : List (List Char) → List (Nat × List Char)
  | [] => []
  | n :: ns => (i, n) :: indexedFrom (i + 1) ns

/-! ## Audio data model (preprocess_sp303_wavs.py) -/

/-- Snapshot of one PCM audio file as the `wave` module exposes it: the
format parameters together with the raw frame bytes. -/
@[ext]
structure AudioAsset where
  nchannels : Nat
  sampwidth : Nat
  framerate : Nat
  nframes : Nat
  frames : List Nat
deriving Repr, DecidableEq

/-- Facts true of every asset obtained by successfully reading a WAV file:
the byte payload has exactly `nframes` frames of `nchannels * sampwidth`
bytes, and the format fields are positive. -/
def WellFormed (a : AudioAsset) : Prop :=
  a.frames.length = a.nframes * (a.nchannels * a.sampwidth)
    ∧ 0 < a.nchannels ∧ 0 < a.sampwidth ∧ 0 < a.framerate

instance (a : AudioAsset) : Decidable (WellFormed a) := by
  unfold WellFormed; infer_instance

/-- Duration in seconds, `frames / framerate` from `get_wav_info`. -/
def durationSeconds (a : AudioAsset) : ℚ :=
  (a.nframes : ℚ) / (a.framerate : ℚ)

/-- The SP-303 minimum sample duration from the source, 0.11 seconds. -/
def MIN_DURATION : ℚ := 11 / 100

/-- Truncation toward zero, the behaviour of Python `int()` on a number. -/
def ratTrunc (q : ℚ) : ℤ :=
  if 0 ≤ q then ⌊q⌋ else -⌊-q⌋

/-- Embedding of `pad_short_sample`. When the current duration already
reaches the target the file is passed through unchanged. Otherwise
`target_frames = int(target * framerate)` frames are aimed for and the
missing frames are appended as zero bytes; a negative byte count yields an
empty padding, as in Python. The frame count of the written file is what
the `wave` module derives from the written payload, namely the byte length
divided by the frame size. -/
def pad_short_sample (a : AudioAsset) (target : ℚ) : AudioAsset :=
  if target ≤ durationSeconds a then a
  else
    let targetFrames : ℤ := ratTrunc (target * (a.framerate : ℚ))
    let silenceBytes : ℤ := (targetFrames - (a.nframes : ℤ)) * (a.nchannels : ℤ) * (a.sampwidth : ℤ)
    let padded : List Nat := a.frames ++ List.replicate silenceBytes.toNat 0
    { a with
      nframes := padded.length / (a.nchannels * a.sampwidth)
      frames := padded }

/-- Embedding of the result flag of `convert_format`: `true` exactly when
no conversion is needed (the data is copied through unchanged either
way). -/
def convert_format (a : AudioAsset) : Bool :=
  !(decide (a.framerate ≠ 44100) || decide (a.sampwidth ≠ 2))

/-- Embedding of `is_sp303_compatible` (44100 Hz, 16-bit, mono or stereo,
at least the minimum duration). -/
def is_sp303_compatible (a : AudioAsset) : Bool :=
  decide (a.framerate = 44100) && decide (a.sampwidth = 2)
    && (decide (a.nchannels = 1) || decide (a.nchannels = 2))
    && decide (MIN_DURATION ≤ durationSeconds a)

/-! ## Compliance verdict and counters (preprocess_directory) -/

/-- The four per-file outcomes that the spec calls the compliance
verdict. -/
inductive ComplianceVerdict where
  | Unreadable
  | TooShort
  | FormatMismatch
  | Compliant
deriving Repr, DecidableEq

/-- Per-file classification implemented by the branch structure of
`preprocess_directory`: an unreadable container (`get_wav_info` returned
nothing) is `Unreadable`; a readable file shorter than `MIN_DURATION` is
`TooShort` (checked first); otherwise a frame rate other than 44100 or a
sample width other than 2 gives `FormatMismatch`; otherwise `Compliant`.
The branch on lines 243 and 236 of the source tests only the frame rate
and the sample width. -/
def classifyWav : Option AudioAsset → ComplianceVerdict
  | none => ComplianceVerdict.Unreadable
  | some a =>
    if durationSeconds a < MIN_DURATION then ComplianceVerdict.TooShort
    else if a.framerate ≠ 44100 ∨ a.sampwidth ≠ 2 then ComplianceVerdict.FormatMismatch
    else ComplianceVerdict.Compliant

/-- Classification written from the words of the claim, for comparison
with `classifyWav`: same precedence, but with `FormatMismatch` also when
the channel count is neither 1 nor 2. -/
def classifyWavClaim : Option AudioAsset → ComplianceVerdict
  | none => ComplianceVerdict.Unreadable
  | some a =>
    if durationSeconds a < MIN_DURATION then ComplianceVerdict.TooShort
    else if a.framerate ≠ 44100 ∨ a.sampwidth ≠ 2 ∨ (a.nchannels ≠ 1 ∧ a.nchannels ≠ 2) then
      ComplianceVerdict.FormatMismatch
    else ComplianceVerdict.Compliant

/-- The four counters that `preprocess_directory` accumulates. -/
structure Counts where
  compatible : Nat
  padded : Nat
  formatIssues : Nat
  errors : Nat
deriving Repr, DecidableEq

/-- Counter increments that one file contributes in the loop body of
`preprocess_directory`. An unreadable file counts one error. A too-short
file is padded (one padded count) and the padded output is re-read; when
its frame rate or sample width is still off, `convert_format` is invoked
and one format issue is also counted. A long-enough file with a format
problem goes through `convert_format`, whose result decides between the
compatible and the format-issue counter. Otherwise the file counts as
compatible. -/
def fileDelta (o : Option AudioAsset) : Counts :=
  match o with
  | none => ⟨0, 0, 0, 1⟩
  | some a =>
    if durationSeconds a < MIN_DURATION then
      if (pad_short_sample a MIN_DURATION).framerate ≠ 44100
          ∨ (pad_short_sample a MIN_DURATION).sampwidth ≠ 2 then ⟨0, 1, 1, 0⟩
      else ⟨0, 1, 0, 0⟩
    else if a.framerate ≠ 44100 ∨ a.sampwidth ≠ 2 then
      if convert_format a then ⟨1, 0, 0, 0⟩ else ⟨0, 0, 1, 0⟩
    else ⟨1, 0, 0, 0⟩

/-- Counters after processing a whole directory listing, each file given
as the result of reading it. -/
def preprocessCounts (files : List (Option AudioAsset)) : Counts :=
  files.foldl
    (fun c o =>
      ⟨c.compatible + (fileDelta o).compatible, c.padded + (fileDelta o).padded,
        c.formatIssues + (fileDelta o).formatIssues, c.errors + (fileDelta o).errors⟩)
    ⟨0, 0, 0, 0⟩

/-- Sum of the four counters. -/
def countsTotal (c : Counts) : Nat :=
  c.compatible + c.padded + c.formatIssues + c.errors

/-! ## Bank organizer (create_sp303_banks) -/

/-- Outcome recorded for one (bank, slot) position. -/
inductive SlotAction where
  | copied (bank slot : Nat) (wav : String)
  | notFound (bank slot : Nat) (name : List Char)
  | noAssign (bank slot : Nat)
deriving Repr, DecidableEq

/-- Body of the inner loop of `create_sp303_banks` for one bank and slot:
look the global pad up in the pad map, search a WAV file for its name, and
copy it. The file search is abstracted by `findWav` and the copy by the
failure oracle `copyFails`; a failing copy raises, which the source does
not catch, so it surfaces as the `Except` error. -/
def processPad (pads : List (Nat × List Char)) (findWav : List Char → Option String)
    (copyFails : String → Bool) (bank slot : Nat) : Except String SlotAction :=
  match pads.lookup (8 * bank + slot) with
  | none => Except.ok (SlotAction.noAssign bank slot)
  | some name =>
    match findWav name with
    | none => Except.ok (SlotAction.notFound bank slot name)
    | some wav =>
      if copyFails wav then Except.error wav else Except.ok (SlotAction.copied bank slot wav)

/-- Iteration order of the two nested loops of `create_sp303_banks`:
banks 0..7, inside each bank slots 0..7. -/
def worklist : List (Nat × Nat) :=
  (List.range 8).flatMap (fun bank => (List.range 8).map (fun slot => (bank, slot)))

/-- Sequential processing of the remaining (bank, slot) positions: the
first uncaught copy failure aborts everything after it, exactly as the
uncaught Python exception does. -/
def runSlots (pads : List (Nat × List Char)) (findWav : List Char → Option String)
    (copyFails : String → Bool) : List (Nat × Nat) → Except String (List SlotAction)
  | [] => Except.ok []
  | p :: rest =>
    match processPad pads findWav copyFails p.1 p.2 with
    | Except.error e => Except.error e
    | Except.ok act =>
      match runSlots pads findWav copyFails rest with
      | Except.error e => Except.error e
      | Except.ok acts => Except.ok (act :: acts)

/-- Embedding of `create_sp303_banks` once the pad map is parsed: process
every (bank, slot) pair in order, collecting the per-slot outcomes. -/
def create_sp303_banks (pads : List (Nat × List Char)) (findWav : List Char → Option String)
    (copyFails : String → Bool) : Except String (List SlotAction) :=
  runSlots pads findWav copyFails worklist

/-- Success test for an `Except` result. -/
def exOk {ε α : Type} : Except ε α → Bool
  | Except.ok _ => true
  | Except.error _ => false

/-! ## Helper lemmas about the parser -/

set_option maxRecDepth 100000

theorem listStartsWith_iff (pat : List Char) : ∀ s : List Char,
    listStartsWith pat s = true ↔ s.take pat.length = pat := by
  induction pat with
  | nil => intro s; simp [listStartsWith]
  | cons a pa ih =>
    intro s
    cases s with
    | nil => simp [listStartsWith]
    | cons b sb =>
      simp only [listStartsWith, Bool.and_eq_true, decide_eq_true_eq, List.length_cons,
        List.take_succ_cons, List.cons.injEq, ih]
      constructor
      · rintro ⟨h1, h2⟩; exact ⟨h1.symm, h2⟩
      · rintro ⟨h1, h2⟩; exact ⟨h1.symm, h2⟩

theorem hasSub_iff (pat : List Char) : ∀ s : List Char,
    hasSub pat s = true ↔ ∃ i, (s.drop i).take pat.length = pat := by
  intro s
  induction s with
  | nil =>
    simp only [hasSub, listStartsWith_iff, List.drop_nil]
    constructor
    · intro h; exact ⟨0, h⟩
    · rintro ⟨i, h⟩; exact h
  | cons c rest ih =>
    simp only [hasSub, Bool.or_eq_true, listStartsWith_iff, ih]
    constructor
    · rintro (h | ⟨i, h⟩)
      · exact ⟨0, h⟩
      · exact ⟨i + 1, h⟩
    · rintro ⟨i, h⟩
      cases i with
      | zero => exact Or.inl h
      | succ j => exact Or.inr ⟨j, h⟩

theorem headerChars_append (pre rest : List Nat) (h : 20 ≤ pre.length) :
    headerChars (pre ++ rest) = headerChars pre := by
  unfold headerChars
  rw [List.drop_append_of_le_length (by omega),
    List.take_append_of_le_length (by simp [List.length_drop]; omega)]

theorem char_toNat_ofNat (n : Nat) (h : n < 55296) : (Char.ofNat n).toNat = n := by
  rw [Char.ofNat, dif_pos (Or.inl h)]
  simp [Char.ofNatAux, Char.toNat, UInt32.toNat, BitVec.toNat_ofNatLt]

theorem mem_decodeChars {c : Char} : ∀ {bs : List Nat},
    c ∈ decodeChars bs → 32 ≤ c.toNat ∧ c.toNat ≤ 126 := by
  intro bs
  induction bs with
  | nil => simp [decodeChars]
  | cons b rest ih =>
    simp only [decodeChars]
    split
    · rename_i hb
      intro hmem
      rcases List.mem_cons.mp hmem with h | h
      · subst h
        rw [char_toNat_ofNat b (by omega)]
        exact hb
      · exact ih h
    · split
      · simp
      · exact ih

theorem mem_pyStrip {c : Char} {s : List Char} (h : c ∈ pyStrip s) : c ∈ s := by
  unfold pyStrip at h
  have h1 := List.mem_reverse.mp h
  have h2 := (List.dropWhile_sublist _).mem h1
  have h3 := List.mem_reverse.mp h2
  exact (List.dropWhile_sublist _).mem h3

theorem decodeChars_eq_nil : ∀ {bs : List Nat},
    (∀ b ∈ bs, ¬(32 ≤ b ∧ b ≤ 126)) → decodeChars bs = [] := by
  intro bs
  induction bs with
  | nil => intro _; rfl
  | cons b rest ih =>
    intro h
    have hb := h b (by simp)
    simp only [decodeChars, if_neg hb]
    split
    · rfl
    · exact ih (fun x hx => h x (by simp [hx]))

theorem decodeChars_padded : ∀ (m : List Char) (k : Nat),
    (∀ c ∈ m, 32 ≤ c.toNat ∧ c.toNat ≤ 126) →
    decodeChars (m.map Char.toNat ++ List.replicate k 0) = m := by
  intro m
  induction m with
  | nil =>
    intro k _
    cases k with
    | zero => rfl
    | succ j => simp [List.replicate, decodeChars]
  | cons c m ih =>
    intro k h
    have hc := h c (by simp)
    simp only [List.map_cons, List.cons_append, decodeChars, if_pos hc]
    rw [Char.ofNat_toNat]
    simp only [List.append_eq]
    rw [ih k (fun x hx => h x (by simp [hx]))]

theorem nameField_length {n : List Char} (h : n.length ≤ 16) : (nameField n).length = 16 := by
  simp [nameField]; omega

theorem mkRecord_length {n : List Char} (h : n.length ≤ 16) : (mkRecord n).length = 164 := by
  simp [mkRecord, nameField]; omega

theorem decodeChars_nameField {n : List Char} (h : GoodName n) :
    decodeChars (nameField n) = n :=
  decodeChars_padded n (16 - n.length) h.2.2.1

theorem scanAux_records : ∀ (names : List (List Char)) (pre : List Nat) (i fuel : Nat),
    (∀ n ∈ names, GoodName n) → i + names.length ≤ 64 → names.length ≤ fuel →
    scanAux (pre ++ (names.map mkRecord).flatten) i pre.length fuel = indexedFrom i names := by
  intro names
  induction names with
  | nil =>
    intro pre i fuel _ _ _
    simp only [List.map_nil, List.flatten_nil, List.append_nil, indexedFrom]
    cases fuel with
    | zero => rfl
    | succ f =>
      simp only [scanAux]
      rw [if_neg (by omega : ¬(pre.length + 16 ≤ pre.length ∧ i < 64))]
  | cons n ns ih =>
    intro pre i fuel hg hle hfuel
    obtain ⟨f, rfl⟩ : ∃ f, fuel = f + 1 := ⟨fuel - 1, by simp at hfuel; omega⟩
    have hgn : GoodName n := hg n (by simp)
    have hlen2 : 2 ≤ n.length := hgn.1
    have hlen16 : n.length ≤ 16 := hgn.2.1
    have hrec : (mkRecord n).length = 164 := mkRecord_length hlen16
    simp only [List.map_cons, List.flatten_cons, scanAux]
    have hcond : pre.length + 16 ≤ (pre ++ (mkRecord n ++ (ns.map mkRecord).flatten)).length
        ∧ i < 64 := by
      constructor
      · simp only [List.length_append, hrec]; omega
      · simp at hle; omega
    rw [if_pos hcond]
    have hname : recordName (pre ++ (mkRecord n ++ (ns.map mkRecord).flatten)) pre.length
        = n := by
      unfold recordName decodedName
      rw [List.drop_left]
      unfold mkRecord
      rw [List.append_assoc,
        show (16 : Nat) = (nameField n).length from (nameField_length hlen16).symm,
        List.take_left, decodeChars_nameField hgn]
      exact hgn.2.2.2
    rw [hname, if_neg (by omega : ¬ n.length < 2)]
    have hoff : pre.length + 164 = (pre ++ mkRecord n).length := by
      simp [List.length_append, hrec]
    rw [hoff, show pre ++ (mkRecord n ++ (ns.map mkRecord).flatten)
        = (pre ++ mkRecord n) ++ (ns.map mkRecord).flatten from (List.append_assoc _ _ _).symm,
      ih (pre ++ mkRecord n) (i + 1) f (fun x hx => hg x (by simp [hx]))
        (by simp at hle ⊢; omega) (by simp at hfuel; omega)]
    rfl

theorem scanAux_fst_le (data : List Nat) : ∀ (fuel i off : Nat) (p : Nat × List Char),
    p ∈ scanAux data i off fuel → i ≤ p.1 := by
  intro fuel
  induction fuel with
  | zero => intro i off p h; simp [scanAux] at h
  | succ f ih =>
    intro i off p h
    simp only [scanAux] at h
    split at h
    · split at h
      · split at h
        · exact Nat.le_of_succ_le (ih (i + 1) (off + 164) p h)
        · simp at h
      · rcases List.mem_cons.mp h with h1 | h1
        · rw [h1]
        · exact Nat.le_of_succ_le (ih (i + 1) (off + 164) p h1)
    · simp at h

theorem indexedFrom_map_fst : ∀ (ns : List (List Char)) (i : Nat),
    (indexedFrom i ns).map Prod.fst = List.range' i ns.length := by
  intro ns
  induction ns with
  | nil => intro i; rfl
  | cons n ns ih => intro i; simp [indexedFrom, List.range', ih]

theorem indexedFrom_map_snd : ∀ (ns : List (List Char)) (i : Nat),
    (indexedFrom i ns).map Prod.snd = ns := by
  intro ns
  induction ns with
  | nil => intro i; rfl
  | cons n ns ih => intro i; simp [indexedFrom, ih]

/-! ## Claims about the descriptor parser -/

/-- Claim C1: a synthetic descriptor built from a valid magic header
followed by N well-formed consecutive records (each holding a printable,
trim-stable name of length at least 2 and at most 16) parses to a pad map
of size N whose keys are exactly 0..N-1 and whose values are exactly the
original names, so building a descriptor from known names and re-parsing
recovers the same names. -/
theorem claim_C1 (names : List (List Char)) (hg : ∀ n ∈ names, GoodName n)
    (hN : names.length ≤ 64) :
    parse_pgm_file (mkDescriptor names) = Except.ok (indexedFrom 0 names)
      ∧ (indexedFrom 0 names).map Prod.fst = List.range names.length
      ∧ (indexedFrom 0 names).map Prod.snd = names := by
  refine ⟨?_, ?_, indexedFrom_map_snd names 0⟩
  · unfold parse_pgm_file mkDescriptor
    have hmagic : containsMagic (headerBytes ++ (names.map mkRecord).flatten) = true := by
      unfold containsMagic
      rw [headerChars_append headerBytes _ (by decide)]
      decide
    rw [if_pos hmagic, show (24 : Nat) = headerBytes.length from by decide,
      scanAux_records names headerBytes 0 64 hg (by omega) (by omega)]
  · rw [indexedFrom_map_fst, List.range_eq_range']

/-- Witness for claim C1 at the two concrete names KICK and SNARE. -/
theorem claim_C1_witness :
    (∀ n ∈ [['K', 'I', 'C', 'K'], ['S', 'N', 'A', 'R', 'E']], GoodName n)
      ∧ parse_pgm_file (mkDescriptor [['K', 'I', 'C', 'K'], ['S', 'N', 'A', 'R', 'E']])
        = Except.ok (indexedFrom 0 [['K', 'I', 'C', 'K'], ['S', 'N', 'A', 'R', 'E']]) :=
  ⟨by decide, (claim_C1 [['K', 'I', 'C', 'K'], ['S', 'N', 'A', 'R', 'E']]
    (by decide) (by decide)).1⟩

/-- Claim C4: parsing succeeds exactly when the ASCII decoding of the
bytes at offsets 4..19 contains the magic substring somewhere, and when
the magic is absent the parse fails with the format error no matter what
follows the 20-byte header region; the header failure is the only error
of the whole invocation. -/
theorem claim_C4 :
    (∀ data : List Nat,
      exOk (parse_pgm_file data) = true
        ↔ ∃ i, ((headerChars data).drop i).take magicChars.length = magicChars)
      ∧ ∀ pre rest : List Nat, 20 ≤ pre.length →
          ¬(∃ i, ((headerChars pre).drop i).take magicChars.length = magicChars) →
          ∃ e, parse_pgm_file (pre ++ rest) = Except.error e := by
  have key : ∀ data : List Nat,
      exOk (parse_pgm_file data) = true ↔ containsMagic data = true := by
    intro data
    unfold parse_pgm_file
    split
    · rename_i h; simp [exOk, h]
    · rename_i h; simp [exOk, h]
  constructor
  · intro data
    rw [key data]
    unfold containsMagic
    exact hasSub_iff magicChars (headerChars data)
  · intro pre rest hlen hno
    refine ⟨"Not a valid MPC1000 PGM file", ?_⟩
    unfold parse_pgm_file
    rw [if_neg ?hmag]
    case hmag =>
      intro hm
      unfold containsMagic at hm
      rw [headerChars_append pre rest hlen] at hm
      exact hno ((hasSub_iff _ _).mp hm)

/-- Witness for claim C4: a descriptor holding the magic at the start of
the header region parses successfully. -/
theorem claim_C4_witness : exOk (parse_pgm_file (mkDescriptor [])) = true :=
  (claim_C4.1 (mkDescriptor [])).mpr ⟨0, by decide⟩

/-- Claim C5: inside the record scan, an invalid record (decoded, trimmed
name shorter than two characters) terminates the scan exactly when it is
examined at pad index 0, which is the very first record since every
continuing iteration increments the index; at any later index the record
is skipped, the scan continues with the index and the offset advanced by
one 164-byte stride, and the skipped index never appears in the resulting
pad map. -/
theorem claim_C5 (data : List Nat) (i off fuel : Nat)
    (hcond : off + 16 ≤ data.length ∧ i < 64)
    (hshort : (recordName data off).length < 2) :
    (i = 0 → scanAux data i off (fuel + 1) = [])
      ∧ (0 < i → scanAux data i off (fuel + 1) = scanAux data (i + 1) (off + 164) fuel
          ∧ ∀ name : List Char, (i, name) ∉ scanAux data i off (fuel + 1)) := by
  constructor
  · intro h0
    simp only [scanAux, if_pos hcond, if_pos hshort]
    rw [if_neg (by omega)]
  · intro hpos
    have heq : scanAux data i off (fuel + 1) = scanAux data (i + 1) (off + 164) fuel := by
      simp only [scanAux, if_pos hcond, if_pos hshort, if_pos hpos]
    refine ⟨heq, ?_⟩
    intro name hmem
    rw [heq] at hmem
    have hle := scanAux_fst_le data fuel (i + 1) (off + 164) (i, name) hmem
    simp at hle

/-- Witness for claim C5: in an all-zero 40-byte buffer the record at
offset 24 decodes to the empty name and, at pad index 1, is skipped with
index and offset advanced by one stride. -/
theorem claim_C5_witness :
    scanAux (List.replicate 40 0) 1 24 3 = scanAux (List.replicate 40 0) 2 188 2 :=
  (((claim_C5 (List.replicate 40 0) 1 24 2 (by decide) (by decide)).2) (by decide)).1

/-- Claim C6: every character of a decoded and trimmed name lies in the
printable ASCII range 32..126 and in particular is never the null
character, and a field whose bytes are all outside the printable range
decodes to the empty name. -/
theorem claim_C6 (raw : List Nat) :
    (∀ c ∈ decodedName raw, 32 ≤ c.toNat ∧ c.toNat ≤ 126 ∧ c ≠ '\x00')
      ∧ ((∀ b ∈ raw, ¬(32 ≤ b ∧ b ≤ 126)) → decodedName raw = []) := by
  constructor
  · intro c hc
    unfold decodedName at hc
    have h := mem_decodeChars (mem_pyStrip hc)
    refine ⟨h.1, h.2, ?_⟩
    intro hnull
    rw [hnull] at h
    exact absurd h.1 (by decide)
  · intro h
    unfold decodedName
    rw [decodeChars_eq_nil h]
    rfl

/-- Witness for claim C6: a field of control and high bytes decodes to the
empty name. -/
theorem claim_C6_witness : decodedName [1, 2, 200, 0, 7] = [] :=
  (claim_C6 [1, 2, 200, 0, 7]).2 (by decide)

/-- Counterexample for claim C9: a 40-byte descriptor, which is shorter
than one full 164-byte record after the base offset 24, still yields a
pad map with one entry, because the scan only needs the 16-byte name
field to fit in the buffer. -/
theorem claim_C9_counterexample :
    (headerBytes ++ nameField ['K', 'I', 'C', 'K']).length < 24 + 164
      ∧ parse_pgm_file (headerBytes ++ nameField ['K', 'I', 'C', 'K'])
        = Except.ok [(0, ['K', 'I', 'C', 'K'])] :=
  ⟨by decide, rfl⟩

/-- Claim C9 (amended): a buffer with a valid magic header that is
shorter than one 16-byte name field after the base offset 24 (total
length below 40) makes `parse_pgm_file` return an empty pad map without
an error. -/
theorem claim_C9 (data : List Nat) (hmagic : containsMagic data = true)
    (hsmall : data.length < 40) :
    parse_pgm_file data = Except.ok [] := by
  unfold parse_pgm_file
  rw [if_pos hmagic, show (64 : Nat) = 63 + 1 from rfl]
  simp only [scanAux]
  rw [if_neg (by omega)]

/-- Witness for claim C9: the bare 24-byte header parses to the empty pad
map. -/
theorem claim_C9_witness : parse_pgm_file headerBytes = Except.ok [] :=
  claim_C9 headerBytes (by decide) (by decide)

/-! ## Helper lemmas about the silence padder -/

theorem pad_pass (a : AudioAsset) (t : ℚ) (h : t ≤ durationSeconds a) :
    pad_short_sample a t = a := by
  unfold pad_short_sample
  rw [if_pos h]

theorem pad_fields (a : AudioAsset) (t : ℚ) :
    (pad_short_sample a t).nchannels = a.nchannels
      ∧ (pad_short_sample a t).sampwidth = a.sampwidth
      ∧ (pad_short_sample a t).framerate = a.framerate := by
  unfold pad_short_sample
  split <;> exact ⟨rfl, rfl, rfl⟩

theorem pad_spec_short (a : AudioAsset) (t : ℚ) (hwf : WellFormed a)
    (hlt : durationSeconds a < t) :
    ∃ k : Nat, a.nframes + k = (⌊t * (a.framerate : ℚ)⌋).toNat
      ∧ pad_short_sample a t
        = { a with
            nframes := (⌊t * (a.framerate : ℚ)⌋).toNat
            frames := a.frames ++ List.replicate (k * (a.nchannels * a.sampwidth)) 0 } := by
  obtain ⟨hlen, hch, hsw, hfr⟩ := hwf
  have hfrQ : (0 : ℚ) < (a.framerate : ℚ) := by exact_mod_cast hfr
  have hdn : (0 : ℚ) ≤ durationSeconds a := by
    unfold durationSeconds
    positivity
  have ht0 : (0 : ℚ) < t := lt_of_le_of_lt hdn hlt
  have htfr : (a.nframes : ℚ) < t * (a.framerate : ℚ) := by
    have h2 := hlt
    unfold durationSeconds at h2
    exact (div_lt_iff₀ hfrQ).mp h2
  have hle : (a.nframes : ℤ) ≤ ⌊t * (a.framerate : ℚ)⌋ :=
    Int.le_floor.mpr (le_of_lt (by exact_mod_cast htfr))
  have hTnn : (0 : ℤ) ≤ ⌊t * (a.framerate : ℚ)⌋ :=
    le_trans (by exact_mod_cast Nat.zero_le a.nframes) hle
  refine ⟨(⌊t * (a.framerate : ℚ)⌋).toNat - a.nframes, by omega, ?_⟩
  unfold pad_short_sample
  rw [if_neg (not_le.mpr hlt)]
  have htr : ratTrunc (t * (a.framerate : ℚ)) = ⌊t * (a.framerate : ℚ)⌋ := by
    unfold ratTrunc
    rw [if_pos (by positivity)]
  have hsil : ((ratTrunc (t * (a.framerate : ℚ)) - (a.nframes : ℤ)) * (a.nchannels : ℤ)
        * (a.sampwidth : ℤ)).toNat
      = ((⌊t * (a.framerate : ℚ)⌋).toNat - a.nframes) * (a.nchannels * a.sampwidth) := by
    rw [htr]
    have h1 : ⌊t * (a.framerate : ℚ)⌋ - (a.nframes : ℤ)
        = (((⌊t * (a.framerate : ℚ)⌋).toNat - a.nframes : ℕ) : ℤ) := by omega
    rw [h1, ← Nat.cast_mul, ← Nat.cast_mul, Int.toNat_natCast, Nat.mul_assoc]
  simp only [hsil]
  have hlen2 : (a.frames ++ List.replicate
        (((⌊t * (a.framerate : ℚ)⌋).toNat - a.nframes) * (a.nchannels * a.sampwidth)) 0).length
        / (a.nchannels * a.sampwidth)
      = (⌊t * (a.framerate : ℚ)⌋).toNat := by
    rw [List.length_append, List.length_replicate, hlen, ← Nat.add_mul]
    have h3 : a.nframes + ((⌊t * (a.framerate : ℚ)⌋).toNat - a.nframes)
        = (⌊t * (a.framerate : ℚ)⌋).toNat := by omega
    rw [h3, Nat.mul_comm]
    exact Nat.mul_div_cancel_left _ (Nat.mul_pos hch hsw)
  simp only [hlen2]

theorem pad_wellFormed (a : AudioAsset) (t : ℚ) (hwf : WellFormed a) :
    WellFormed (pad_short_sample a t) := by
  by_cases h : t ≤ durationSeconds a
  · rw [pad_pass a t h]
    exact hwf
  · push_neg at h
    obtain ⟨k, hk, hout⟩ := pad_spec_short a t hwf h
    obtain ⟨hlen, hch, hsw, hfr⟩ := hwf
    rw [hout]
    refine ⟨?_, hch, hsw, hfr⟩
    show (a.frames ++ List.replicate (k * (a.nchannels * a.sampwidth)) 0).length
      = (⌊t * (a.framerate : ℚ)⌋).toNat * (a.nchannels * a.sampwidth)
    rw [List.length_append, List.length_replicate, hlen, ← Nat.add_mul, hk]

/-! ## Claims about the silence padder and the analyzer -/

/-- Claim C2: for a readable asset and target duration t, when the
duration is below t the padded output has frame count equal to the
truncation of t times the frame rate, its first frames are byte-identical
to the input and the appended bytes are all zero, while the frame rate,
sample width and channel count are unchanged; when the duration already
reaches t the output is the unchanged input. The padder never shortens
and never alters the original bytes. -/
theorem claim_C2 (a : AudioAsset) (t : ℚ) (hwf : WellFormed a) :
    ((durationSeconds a < t →
        (pad_short_sample a t).nframes = (⌊t * (a.framerate : ℚ)⌋).toNat
          ∧ (pad_short_sample a t).frames.take a.frames.length = a.frames
          ∧ ∀ b ∈ (pad_short_sample a t).frames.drop a.frames.length, b = 0)
      ∧ (t ≤ durationSeconds a → pad_short_sample a t = a))
      ∧ (pad_short_sample a t).framerate = a.framerate
      ∧ (pad_short_sample a t).sampwidth = a.sampwidth
      ∧ (pad_short_sample a t).nchannels = a.nchannels
      ∧ a.nframes ≤ (pad_short_sample a t).nframes
      ∧ (pad_short_sample a t).frames.take a.frames.length = a.frames := by
  by_cases h : t ≤ durationSeconds a
  · rw [pad_pass a t h]
    exact ⟨⟨fun hlt => absurd hlt (not_lt.mpr h), fun _ => rfl⟩, rfl, rfl, rfl, le_refl _,
      List.take_length a.frames⟩
  · push_neg at h
    obtain ⟨k, hk, hout⟩ := pad_spec_short a t hwf h
    rw [hout]
    have htake : (a.frames ++ List.replicate (k * (a.nchannels * a.sampwidth)) 0).take
        a.frames.length = a.frames := List.take_left a.frames _
    refine ⟨⟨fun _ => ⟨rfl, htake, ?_⟩, fun hle => absurd h (not_lt.mpr hle)⟩,
      rfl, rfl, rfl, by show a.nframes ≤ (⌊t * (a.framerate : ℚ)⌋).toNat; omega, htake⟩
    intro b hb
    have hb2 : b ∈ (a.frames ++ List.replicate (k * (a.nchannels * a.sampwidth)) 0).drop
      a.frames.length := hb
    rw [List.drop_left] at hb2
    exact List.eq_of_mem_replicate hb2

/-- Witness for claim C2: a one-second asset at the pass-through branch. -/
theorem claim_C2_witness :
    WellFormed (AudioAsset.mk 1 2 10 10 (List.replicate 20 0))
      ∧ pad_short_sample (AudioAsset.mk 1 2 10 10 (List.replicate 20 0)) (1 / 2)
        = AudioAsset.mk 1 2 10 10 (List.replicate 20 0) :=
  ⟨by decide, ((claim_C2 (AudioAsset.mk 1 2 10 10 (List.replicate 20 0)) (1 / 2)
    (by decide)).1.2) (by norm_num [durationSeconds])⟩

/-- Claim C7: the silence padder is idempotent, applying it twice with
the same target duration gives the same asset as applying it once. -/
theorem claim_C7 (a : AudioAsset) (t : ℚ) (hwf : WellFormed a) :
    pad_short_sample (pad_short_sample a t) t = pad_short_sample a t := by
  by_cases h : t ≤ durationSeconds a
  · rw [pad_pass a t h, pad_pass a t h]
  · push_neg at h
    by_cases h2 : t ≤ durationSeconds (pad_short_sample a t)
    · exact pad_pass _ t h2
    · push_neg at h2
      obtain ⟨k, hk, hout⟩ := pad_spec_short a t hwf h
      obtain ⟨k2, hk2, hout2⟩ :=
        pad_spec_short (pad_short_sample a t) t (pad_wellFormed a t hwf) h2
      have hfr : (pad_short_sample a t).framerate = a.framerate := (pad_fields a t).2.2
      have hnf : (pad_short_sample a t).nframes = (⌊t * (a.framerate : ℚ)⌋).toNat := by
        rw [hout]
      rw [hfr, hnf] at hk2
      have hk20 : k2 = 0 := by omega
      rw [hout2, hk20, hfr, Nat.zero_mul, List.replicate_zero, List.append_nil, ← hnf, ← hfr]

/-- Witness for claim C7 at a concrete short asset. -/
theorem claim_C7_witness :
    pad_short_sample (pad_short_sample (AudioAsset.mk 1 2 10 1 [5, 6]) (1 / 2)) (1 / 2)
      = pad_short_sample (AudioAsset.mk 1 2 10 1 [5, 6]) (1 / 2) :=
  claim_C7 (AudioAsset.mk 1 2 10 1 [5, 6]) (1 / 2) (by decide)

/-- Counterexample for claim C3: a four-channel, otherwise perfect file.
The verdict computed by the per-file flow of `preprocess_directory` is
Compliant, while the claimed rule (channel count outside one or two gives
FormatMismatch) would yield FormatMismatch, so the claimed channel test
is not part of the implemented verdict. -/
theorem claim_C3_counterexample :
    classifyWav (some (AudioAsset.mk 4 2 44100 44100 [])) = ComplianceVerdict.Compliant
      ∧ classifyWavClaim (some (AudioAsset.mk 4 2 44100 44100 []))
        = ComplianceVerdict.FormatMismatch := by
  constructor
  · norm_num [classifyWav, durationSeconds, MIN_DURATION]
  · norm_num [classifyWavClaim, durationSeconds, MIN_DURATION]

/-- Claim C3 (amended): the per-file verdict follows the precedence
Unreadable, then TooShort for duration below 0.11 seconds (before any
format test), then FormatMismatch for frame rate other than 44100 or
sample width other than 2, else Compliant; it is a pure function of
sample width, frame rate and duration, and in particular the channel
count never affects it (the channel test exists only in the helper
`is_sp303_compatible`, which the per-file flow does not call). -/
theorem claim_C3 (a : AudioAsset) :
    classifyWav none = ComplianceVerdict.Unreadable
      ∧ (durationSeconds a < MIN_DURATION →
          classifyWav (some a) = ComplianceVerdict.TooShort)
      ∧ (MIN_DURATION ≤ durationSeconds a → (a.framerate ≠ 44100 ∨ a.sampwidth ≠ 2) →
          classifyWav (some a) = ComplianceVerdict.FormatMismatch)
      ∧ (MIN_DURATION ≤ durationSeconds a → a.framerate = 44100 → a.sampwidth = 2 →
          classifyWav (some a) = ComplianceVerdict.Compliant)
      ∧ (∀ b : AudioAsset, a.sampwidth = b.sampwidth → a.framerate = b.framerate →
          durationSeconds a = durationSeconds b →
          classifyWav (some a) = classifyWav (some b)) := by
  refine ⟨rfl, ?_, ?_, ?_, ?_⟩
  · intro h
    simp only [classifyWav]
    rw [if_pos h]
  · intro h1 h2
    simp only [classifyWav]
    rw [if_neg (not_lt.mpr h1), if_pos h2]
  · intro h1 h2 h3
    simp only [classifyWav]
    rw [if_neg (not_lt.mpr h1), if_neg (by simp [h2, h3])]
  · intro b hsw hfr hd
    simp only [classifyWav]
    rw [hd, hsw, hfr]

/-- Witness for claim C3: a centisecond file is classified TooShort. -/
theorem claim_C3_witness :
    classifyWav (some (AudioAsset.mk 1 2 44100 441 [])) = ComplianceVerdict.TooShort :=
  (claim_C3 (AudioAsset.mk 1 2 44100 441 [])).2.1
    (by norm_num [durationSeconds, MIN_DURATION])

/-- Claim C10: every readable file contributes at least one counter
increment, yet the counters do not partition the files, because a file
that is too short and whose padded output still has the wrong frame rate
or sample width is counted both as padded and as a format issue, so the
counter total can exceed the number of processed files. -/
theorem claim_C10 :
    (∀ a : AudioAsset, 1 ≤ countsTotal (fileDelta (some a)))
      ∧ (∃ a : AudioAsset, durationSeconds a < MIN_DURATION
          ∧ (fileDelta (some a)).padded = 1 ∧ (fileDelta (some a)).formatIssues = 1)
      ∧ (∃ files : List (Option AudioAsset),
          files.length < countsTotal (preprocessCounts files)) := by
  have hd : fileDelta (some (AudioAsset.mk 1 2 10 1 [5, 6])) = ⟨0, 1, 1, 0⟩ := by
    have hfr : (pad_short_sample (AudioAsset.mk 1 2 10 1 [5, 6]) MIN_DURATION).framerate
        = 10 := (pad_fields _ _).2.2
    simp only [fileDelta]
    rw [if_pos (by norm_num [durationSeconds, MIN_DURATION]),
      if_pos (Or.inl (by rw [hfr]; norm_num))]
  refine ⟨?_, ⟨AudioAsset.mk 1 2 10 1 [5, 6],
      by norm_num [durationSeconds, MIN_DURATION], by rw [hd], by rw [hd]⟩,
    ⟨[some (AudioAsset.mk 1 2 10 1 [5, 6])], ?_⟩⟩
  · intro a
    simp only [fileDelta]
    split
    · split
      · decide
      · decide
    · split
      · split
        · decide
        · decide
      · decide
  · simp only [preprocessCounts, List.foldl, hd]
    decide

/-! ## Claims about the bank organizer -/

theorem runSlots_ok_iff (pads : List (Nat × List Char)) (findWav : List Char → Option String)
    (copyFails : String → Bool) : ∀ l : List (Nat × Nat),
    exOk (runSlots pads findWav copyFails l) = true
      ↔ ∀ p ∈ l, exOk (processPad pads findWav copyFails p.1 p.2) = true := by
  intro l
  induction l with
  | nil => simp [runSlots, exOk]
  | cons q l ih =>
    simp only [runSlots]
    cases hq : processPad pads findWav copyFails q.1 q.2 with
    | error e =>
      constructor
      · intro h
        simp [exOk] at h
      · intro h
        have hc := h q (by simp)
        rw [hq] at hc
        simp [exOk] at hc
    | ok act =>
      cases hrest : runSlots pads findWav copyFails l with
      | error e =>
        constructor
        · intro h
          simp [exOk] at h
        · intro h
          have hall : ∀ p ∈ l, exOk (processPad pads findWav copyFails p.1 p.2) = true :=
            fun p hp => h p (by simp [hp])
          have hx := ih.mpr hall
          rw [hrest] at hx
          simp [exOk] at hx
      | ok acts =>
        constructor
        · intro _ p hp
          rcases List.mem_cons.mp hp with h1 | h1
          · rw [h1, hq]
            rfl
          · exact ih.mp (by rw [hrest]; rfl) p h1
        · intro _
          rfl

theorem mem_worklist {b s : Nat} (hb : b < 8) (hs : s < 8) : (b, s) ∈ worklist := by
  simp only [worklist, List.mem_flatMap, List.mem_map, List.mem_range]
  exact ⟨b, hb, s, hs, rfl⟩

/-- Counterexample for claim C8: with two assigned pads and a copy oracle
that fails, the whole invocation returns the uncaught error instead of a
per-file outcome list, so a copy failure does abort the batch. -/
theorem claim_C8_counterexample :
    exOk (create_sp303_banks [(0, ['K', 'K']), (1, ['S', 'S'])]
      (fun n => some (String.mk n)) (fun _ => true)) = false := rfl

/-- Claim C8 (amended): a missing WAV file is only recorded per pad and
the batch continues, so a run in which no copy fails always completes;
but a copy failure is not caught at the file boundary, so any assigned
pad in the 8 by 8 worklist whose found file fails to copy makes the whole
invocation return the error instead of completing the batch. -/
theorem claim_C8 (pads : List (Nat × List Char)) (findWav : List Char → Option String)
    (copyFails : String → Bool) :
    ((∀ w, copyFails w = false) → exOk (create_sp303_banks pads findWav copyFails) = true)
      ∧ ∀ b s name w, b < 8 → s < 8 → pads.lookup (8 * b + s) = some name →
          findWav name = some w → copyFails w = true →
          exOk (create_sp303_banks pads findWav copyFails) = false := by
  constructor
  · intro hnofail
    unfold create_sp303_banks
    rw [runSlots_ok_iff]
    intro p _
    rcases hlk : pads.lookup (8 * p.1 + p.2) with _ | name
    · simp [processPad, hlk, exOk]
    · rcases hfind : findWav name with _ | w
      · simp [processPad, hlk, hfind, exOk]
      · simp [processPad, hlk, hfind, hnofail w, exOk]
  · intro b s name w hb hs hlk hfind hfail
    rw [Bool.eq_false_iff]
    intro hok
    unfold create_sp303_banks at hok
    have hall := (runSlots_ok_iff pads findWav copyFails worklist).mp hok
    have hpq := hall (b, s) (mem_worklist hb hs)
    unfold processPad at hpq
    simp only [hlk, hfind, hfail] at hpq
    simp [exOk] at hpq

/-- Witness for claim C8: with no copy failures the batch completes even
though the only assigned pad has no matching file. -/
theorem claim_C8_witness :
    exOk (create_sp303_banks [(0, ['K', 'K'])] (fun _ => none) (fun _ => false)) = true :=
  (claim_C8 [(0, ['K', 'K'])] (fun _ => none) (fun _ => false)).1 (fun _ => rfl)
